import Mathlib

set_option maxRecDepth 100000

/-!
Verification of the GreenChainAdvisory analysis pipeline.

The definitions below are a shallow embedding of the repository's core logic:

* `server/index.js` — the `POST /api/analyze` route (AI-response parsing with
  fallback, the completion `UPDATE` on the `analyses` table, file cleanup on
  failure), the `GET /api/analyses/:farmerAddress` history route, and the
  `analyses` table schema from `initDatabase`.
* `src/components/PaymentHandler.tsx` — the `handlePayment` flow that submits
  the payment transaction and extracts the correlation identifier from the
  `PaymentReceived` event of the receipt.

JavaScript strings are modelled as Lean `String` (lists of characters), JSON
numbers as exact decimals (the code performs no arithmetic on them), and the
Postgres table as a list of records.  External services (Gemini,
the ledger, Postgres availability) are parameters of the modelled functions.
-/

/-- Exact decimal number `mant / 10 ^ scale`, the value class of JSON number
literals.  Kept in canonical form (trailing zeros of the mantissa absorbed
into the scale, zero as `⟨0, 0⟩`), so that two JSON literals denote the same
number exactly when their canonical forms are equal. -/
structure Dec where
  mant : Int
  scale : Nat
deriving DecidableEq

/-- Strip factors of ten from the mantissa into the scale. -/
def stripTens : Int → Nat → Int × Nat
  | m, 0 => (m, 0)
  | m, k + 1 => if m % 10 == 0 then stripTens (m / 10) k else (m, k + 1)

/-- Canonical decimal for `m / 10 ^ k`. -/
def decNorm (m : Int) (k : Nat) : Dec :=
  if m == 0 then ⟨0, 0⟩
  else
    (fun p => Dec.mk p.1 p.2) (stripTens m k)

/-- JSON values as produced by `JSON.parse`: null, booleans, numbers
(modelled as exact decimals; the code performs no arithmetic on them),
strings, arrays and objects (field lists in source order; later duplicate
keys shadow earlier ones on access). -/
inductive Json where
  | null : Json
  | bool (b : Bool) : Json
  | num (q : Dec) : Json
  | str (s : String) : Json
  | arr (xs : List Json) : Json
  | obj (fields : List (String × Json)) : Json

/-- JavaScript property access `v.k` on a parsed JSON value: on an object the
last binding of the key wins (later duplicate keys overwrite earlier ones in
`JSON.parse`); on any non-object value the access yields `undefined`,
modelled as `none`. -/
def jGet : Json → String → Option Json
  | .obj fs, k => (fs.reverse.find? (fun p => p.1 == k)).map (fun p => p.2)
  | _, _ => none

/-- JSON whitespace characters accepted by `JSON.parse` (space, tab, line
feed, carriage return). -/
def isJsonWs (c : Char) : Bool :=
  c.toNat == 32 || c.toNat == 9 || c.toNat == 10 || c.toNat == 13

/-- Drop leading JSON whitespace. -/
def skipWs : List Char → List Char
  | [] => []
  | c :: cs => if isJsonWs c then skipWs cs else c :: cs

/-- Decimal digit test (code points 48-57). -/
def isDigitCh (c : Char) : Bool := 48 ≤ c.toNat && c.toNat ≤ 57

/-- Value of a decimal digit. -/
def digitVal (c : Char) : Nat := c.toNat - 48

/-- Value of a hexadecimal digit, if any (digits, then the lowercase and the
uppercase letter ranges). -/
def hexVal (c : Char) : Option Nat :=
  let n := c.toNat
  if isDigitCh c then some (n - 48)
  else if 97 ≤ n && n ≤ 102 then some (n - 87)
  else if 65 ≤ n && n ≤ 70 then some (n - 55)
  else none

/-- Single-character JSON string escapes. -/
def escChar : Char → Option Char
  | '"' => some '"'
  | '\\' => some '\\'
  | '/' => some '/'
  | 'b' => some (Char.ofNat 8)
  | 'f' => some (Char.ofNat 12)
  | 'n' => some '\n'
  | 'r' => some '\r'
  | 't' => some '\t'
  | _ => none

/-- Parse the body of a JSON string literal (the opening quote already
consumed), returning the decoded characters and the input after the closing
quote.  Unescaped control characters and bad escapes are rejected, as in
`JSON.parse`. -/
def parseStringBody : List Char → Option (List Char × List Char)
  | [] => none
  | c :: cs =>
    if c == '"' then some ([], cs)
    else if c == '\\' then
      match cs with
      | 'u' :: h1 :: h2 :: h3 :: h4 :: tail =>
        (match hexVal h1, hexVal h2, hexVal h3, hexVal h4 with
         | some a, some b, some d, some e =>
           (parseStringBody tail).map
             (fun p => (Char.ofNat (((a * 16 + b) * 16 + d) * 16 + e) :: p.1, p.2))
         | _, _, _, _ => none)
      | e :: cs' =>
        (match escChar e with
         | some ch => (parseStringBody cs').map (fun p => (ch :: p.1, p.2))
         | none => none)
      | [] => none
    else if c.toNat < 32 then none
    else (parseStringBody cs).map (fun p => (c :: p.1, p.2))

/-- Take a maximal run of decimal digits. -/
def takeDigits : List Char → List Char × List Char
  | [] => ([], [])
  | c :: cs =>
    if isDigitCh c then
      (fun p => (c :: p.1, p.2)) (takeDigits cs)
    else ([], c :: cs)

/-- Numeric value of a digit run. -/
def digitsToNat (ds : List Char) : Nat :=
  ds.foldl (fun n c => 10 * n + digitVal c) 0

/-- Parse a JSON number per the JSON grammar (`-? int frac? exp?`, no leading
zeros), returning its exact decimal value and the remaining input. -/
def parseNumber (cs : List Char) : Option (Dec × List Char) :=
  let signSplit : Bool × List Char :=
    match cs with
    | '-' :: t => (true, t)
    | _ => (false, cs)
  let neg := signSplit.1
  match signSplit.2 with
  | [] => none
  | c :: t =>
    if ¬ isDigitCh c then none
    else
      let intSplit : Nat × List Char :=
        if c == '0' then (0, t)
        else (fun p => (digitsToNat (c :: p.1), p.2)) (takeDigits t)
      let fracStep : Option (Nat × Nat × List Char) :=
        match intSplit.2 with
        | '.' :: fr =>
          (match fr with
           | f :: fr' =>
             if isDigitCh f then
               (fun p =>
                 some (digitsToNat (f :: p.1), (f :: p.1).length, p.2))
                 (takeDigits fr')
             else none
           | [] => none)
        | r => some (0, 0, r)
      match fracStep with
      | none => none
      | some (fracN, fracLen, r2) =>
        let expStep : Option (Bool × Nat × List Char) :=
          match r2 with
          | e :: rest' =>
            if e == 'e' || e == 'E' then
              match rest' with
              | '+' :: d :: dr =>
                if isDigitCh d then
                  (fun p => some (false, digitsToNat (d :: p.1), p.2)) (takeDigits dr)
                else none
              | '-' :: d :: dr =>
                if isDigitCh d then
                  (fun p => some (true, digitsToNat (d :: p.1), p.2)) (takeDigits dr)
                else none
              | d :: dr =>
                if isDigitCh d then
                  (fun p => some (false, digitsToNat (d :: p.1), p.2)) (takeDigits dr)
                else none
              | [] => none
            else some (false, 0, e :: rest')
          | [] => some (false, 0, [])
        match expStep with
        | none => none
        | some (eneg, e, r3) =>
          let m0 : Nat := intSplit.1 * 10 ^ fracLen + fracN
          let mk : Nat × Nat := if eneg then (m0, fracLen + e) else (m0 * 10 ^ e, fracLen)
          let signed : Int := if neg then -(mk.1 : Int) else (mk.1 : Int)
          some (decNorm signed mk.2, r3)

/-- Core JSON parser, structurally recursive on a fuel bound.  `mode 0`
parses one value, `mode 1` the members of an object after its `\x7b` (result
wrapped in `Json.obj`), `mode 2` the elements of an array after its `[`
(result wrapped in `Json.arr`).  Each returns the parsed value and the
remaining input. -/
def parseCore : Nat → Nat → List Char → Option (Json × List Char)
  | 0, _, _ => none
  | fuel + 1, 0, cs =>
    (match skipWs cs with
     | [] => none
     | c :: rest =>
       if c == '{' then
         match skipWs rest with
         | '}' :: r2 => some (.obj [], r2)
         | r2 => parseCore fuel 1 r2
       else if c == '[' then
         match skipWs rest with
         | ']' :: r2 => some (.arr [], r2)
         | r2 => parseCore fuel 2 r2
       else if c == '"' then
         (parseStringBody rest).map (fun p => (.str p.1.asString, p.2))
       else if c == 't' then
         (match rest with
          | 'r' :: 'u' :: 'e' :: r => some (.bool true, r)
          | _ => none)
       else if c == 'f' then
         (match rest with
          | 'a' :: 'l' :: 's' :: 'e' :: r => some (.bool false, r)
          | _ => none)
       else if c == 'n' then
         (match rest with
          | 'u' :: 'l' :: 'l' :: r => some (.null, r)
          | _ => none)
       else
         (parseNumber (c :: rest)).map (fun p => (.num p.1, p.2)))
  | fuel + 1, 1, cs =>
    (match skipWs cs with
     | '"' :: rest =>
       (match parseStringBody rest with
        | some (key, r1) =>
          (match skipWs r1 with
           | ':' :: r2 =>
             (match parseCore fuel 0 r2 with
              | some (v, r3) =>
                (match skipWs r3 with
                 | ',' :: r4 =>
                   (match parseCore fuel 1 r4 with
                    | some (.obj fs, r) => some (.obj ((key.asString, v) :: fs), r)
                    | _ => none)
                 | '}' :: r4 => some (.obj [(key.asString, v)], r4)
                 | _ => none)
              | none => none)
           | _ => none)
        | none => none)
     | _ => none)
  | fuel + 1, _, cs =>
    (match parseCore fuel 0 cs with
     | some (v, r1) =>
       (match skipWs r1 with
        | ',' :: r2 =>
          (match parseCore fuel 2 r2 with
           | some (.arr xs, r) => some (.arr (v :: xs), r)
           | _ => none)
        | ']' :: r2 => some (.arr [v], r2)
        | _ => none)
     | none => none)

/-- Model of `JSON.parse`: parse exactly one JSON value, allowing leading and
trailing whitespace only.  The fuel `2 * length + 2` dominates the recursion
depth (each fuel step consumes input, except the single step from an array
opening to its first element). -/
def jsonParse (cs : List Char) : Option Json :=
  match parseCore (2 * cs.length + 2) 0 cs with
  | some (v, rest) => if (skipWs rest).isEmpty then some v else none
  | none => none

/-- First index where the predicate holds. -/
def firstIdx (p : Char → Bool) : List Char → Option Nat
  | [] => none
  | c :: cs => if p c then some 0 else (firstIdx p cs).map (· + 1)

/-- Last index where the predicate holds. -/
def lastIdx (p : Char → Bool) (cs : List Char) : Option Nat :=
  (firstIdx p cs.reverse).map (fun j => cs.length - 1 - j)

/-- Model of `text.match(/\x7b[\s\S]*\x7d/)` from `server/index.js` line 129:
with leftmost-then-greedy regex semantics the matched substring runs from the
first `\x7b` to the last `\x7d` of the text, provided the latter comes after
the former; otherwise there is no match. -/
def extractJsonSpan (cs : List Char) : Option (List Char) :=
  match firstIdx (fun c => c == '{') cs, lastIdx (fun c => c == '}') cs with
  | some i, some j => if i < j then some ((cs.drop i).take (j - i + 1)) else none
  | _, _ => none

/-- Fixed fallback advice string from `server/index.js` line 139. -/
def fallbackAdvice : String :=
  "Please consult with a local agricultural expert for detailed treatment recommendations."

/-- Model of `text.substring(0, 200) + '...'` from `server/index.js`
line 138. -/
def truncate200 (text : String) : String :=
  (text.data.take 200).asString ++ "..."

/-- The fallback analysis result built in `server/index.js` lines 137-142
when JSON extraction or parsing fails. -/
def fallbackResult (text : String) : Json :=
  .obj [("diagnosis", .str (truncate200 text)),
        ("advice", .str fallbackAdvice),
        ("severity", .str "medium"),
        ("confidence", .num ⟨75, 2⟩)]

/-- The structured path of the response parser (`server/index.js` lines
128-134): extract the brace-delimited span and run `JSON.parse` on it. -/
def structuredParse (text : String) : Option Json :=
  match extractJsonSpan text.data with
  | some span => jsonParse span
  | none => none

/-- The `analysisResult` computed by `POST /api/analyze` (`server/index.js`
lines 126-143): the parsed JSON value if extraction and parsing succeed
(taken as-is, with no field validation), and the deterministic fallback
otherwise. -/
def normalizeResult (text : String) : Json :=
  match structuredParse text with
  | some v => v
  | none => fallbackResult text

/-- A row of the `analyses` table from `initDatabase` (`server/index.js`
lines 50-63).  Result columns are nullable; `completed_at` is null until a
completion write.  Column values written from JavaScript are kept as the
JSON values handed to `pool.query` (`none` models SQL NULL / an `undefined`
field). -/
structure AnalysisRecord where
  analysis_id : String
  farmer_address : String
  image_hash : String
  diagnosis : Option Json
  advice : Option Json
  confidence : Option Json
  severity : Option Json
  created_at : Nat
  completed_at : Option Nat

/-- The completion write of `POST /api/analyze` (`server/index.js` lines
146-157): `UPDATE analyses SET diagnosis = $1, advice = $2, confidence = $3,
severity = $4, completed_at = NOW() WHERE analysis_id = $5`.  Every matching
row gets all five columns set in the one statement; a non-matching row is
untouched; no row is ever inserted. -/
def completeAnalysis (db : List AnalysisRecord) (analysisId : String)
    (result : Json) (now : Nat) : List AnalysisRecord :=
  db.map (fun rec =>
    if rec.analysis_id == analysisId then
      { rec with
        diagnosis := jGet result "diagnosis",
        advice := jGet result "advice",
        confidence := jGet result "confidence",
        severity := jGet result "severity",
        completed_at := some now }
    else rec)

/-- Modelled from the spec: `createPending(correlationId, owner,
imageFingerprint)` of §4.5 — the repository contains no INSERT into the
`analyses` table, so the pending-record creation is missing from the source;
per the spec it inserts a record with null result fields and null
`completedAt`, and fails with `DuplicateId` when the identifier already
exists. -/
def createPending (db : List AnalysisRecord) (id owner hash : String)
    (now : Nat) : Except String (List AnalysisRecord) :=
  if db.any (fun r => r.analysis_id == id) then .error "DuplicateId"
  else .ok (db ++ [⟨id, owner, hash, none, none, none, none, now, none⟩])

/-- A write operation against the analyses store: the spec-modelled
`createPending` or the completion `UPDATE` of the analyze route. -/
inductive StoreOp where
  | createPendingOp (id owner hash : String) (now : Nat)
  | completeOp (id : String) (result : Json) (now : Nat)

/-- Apply one store operation (a failed `createPending` leaves the store
unchanged). -/
def applyOp (db : List AnalysisRecord) : StoreOp → List AnalysisRecord
  | .createPendingOp id owner hash now =>
    (match createPending db id owner hash now with
     | .ok db' => db'
     | .error _ => db)
  | .completeOp id r now => completeAnalysis db id r now

/-- Run a sequence of store operations. -/
def runOps (db : List AnalysisRecord) (ops : List StoreOp) : List AnalysisRecord :=
  ops.foldl applyOp db

/-- An analysis result carrying all four result fields. -/
def resultComplete (r : Json) : Bool :=
  (jGet r "diagnosis").isSome && (jGet r "advice").isSome &&
    (jGet r "confidence").isSome && (jGet r "severity").isSome

/-- Completion operations only ever carry a result with all four fields. -/
def opWellFormed : StoreOp → Bool
  | .createPendingOp _ _ _ _ => true
  | .completeOp _ r _ => resultComplete r

/-- The two-state record invariant of the spec: pending (`completed_at`
null) or completed with all four result fields set. -/
def recordStateOk (rec : AnalysisRecord) : Prop :=
  rec.completed_at = none ∨
    (rec.completed_at ≠ none ∧ rec.diagnosis.isSome = true ∧
      rec.advice.isSome = true ∧ rec.confidence.isSome = true ∧
      rec.severity.isSome = true)

/-- An HTTP response of the analyze route: `res.json(body)` on success, or
`res.status(status).json(\x7b error \x7d)` on failure. -/
inductive HttpResponse where
  | ok (body : Json)
  | err (status : Nat) (error : String)

/-- Server-side state touched by one analyze request: the `analyses` table
and the set of temporary uploaded files on disk. -/
structure ServerState where
  db : List AnalysisRecord
  files : List String

/-- Model of `fs.unlinkSync(path)`: the path no longer exists afterwards
(deleting an absent path is the swallowed `cleanupError` of the catch
block). -/
def removeFile (files : List String) (f : String) : List String :=
  files.filter (fun p => p != f)

/-- The catch-all error message of the analyze route (`server/index.js`
line 177). -/
def analysisFailedMsg : String := "Analysis failed. Please try again later."

/-- Model of `POST /api/analyze` (`server/index.js` lines 74-180).
`imageFile` is the uploaded temporary file (`req.file`), `analysisId` the
form field, `aiText` the Gemini response (`none` models a thrown error from
file reading or inference), `dbWriteOk` whether the completion `UPDATE`
succeeds (`false` models a thrown database error, which modifies nothing).
Returns the response together with the new table and temporary-file
state. -/
def analyzeRoute (imageFile : Option String) (analysisId : Option String)
    (aiText : Option String) (dbWriteOk : Bool) (now : Nat)
    (st : ServerState) : HttpResponse × ServerState :=
  match imageFile with
  | none => (.err 400 "No image file provided", st)
  | some f =>
    match analysisId with
    | none => (.err 400 "Analysis ID is required", st)
    | some id =>
      match aiText with
      | none => (.err 500 analysisFailedMsg, ⟨st.db, removeFile st.files f⟩)
      | some text =>
        let result := normalizeResult text
        if dbWriteOk then
          (.ok result,
           ⟨completeAnalysis st.db id result now, removeFile st.files f⟩)
        else
          (.err 500 analysisFailedMsg, ⟨st.db, removeFile st.files f⟩)

/-- Ordering used by the history route: `a` was created no earlier than
`b`. -/
def mostRecentFirst (a b : AnalysisRecord) : Prop :=
  b.created_at ≤ a.created_at

instance : DecidableRel mostRecentFirst :=
  fun a b => (inferInstance : Decidable (b.created_at ≤ a.created_at))

instance : IsTotal AnalysisRecord mostRecentFirst :=
  ⟨fun a b => Nat.le_total b.created_at a.created_at⟩

instance : IsTrans AnalysisRecord mostRecentFirst :=
  ⟨fun _ _ _ h1 h2 => Nat.le_trans h2 h1⟩

/-- Model of `GET /api/analyses/:farmerAddress` (`server/index.js` lines
183-197): `SELECT * FROM analyses WHERE farmer_address = $1 ORDER BY
created_at DESC`.  The sort realizes the `ORDER BY` as one of its allowed
orders. -/
def getAnalysesByFarmer (db : List AnalysisRecord) (farmerAddress : String) :
    List AnalysisRecord :=
  List.insertionSort mostRecentFirst
    (db.filter (fun r => r.farmer_address == farmerAddress))

/-- The `returnValues` payload of a `PaymentReceived` event; `analysisId` is
`none` when the property is absent. -/
structure EventReturnValues where
  analysisId : Option String

/-- A `PaymentReceived` event as found in a transaction receipt;
`returnValues` may be absent. -/
structure PaymentEvent where
  returnValues : Option EventReturnValues

/-- A transaction receipt as returned by `contract.methods.requestAnalysis(...)
.send(...)`; `paymentReceived` models `transaction.events?.PaymentReceived`
(`none` when the events object or the event itself is missing). -/
structure TxReceipt where
  transactionHash : String
  paymentReceived : Option PaymentEvent

/-- JavaScript `String(x)` on a possibly-absent property. -/
def jsStringOfOpt : Option String → String
  | some s => s
  | none => "undefined"

/-- Whether `pat` occurs at the head of `cs`. -/
def leadMatches : List Char → List Char → Bool
  | _, [] => true
  | [], _ :: _ => false
  | c :: cs, d :: ds => c == d && leadMatches cs ds

/-- Model of JavaScript `str.includes(sub)` (`err.message.includes(...)`). -/
def strIncludes (s sub : String) : Bool :=
  go s.data sub.data
where
  go : List Char → List Char → Bool
    | [], pat => leadMatches [] pat
    | c :: cs, pat => leadMatches (c :: cs) pat || go cs pat

/-- The error-message mapping of `handlePayment`'s catch block
(`src/components/PaymentHandler.tsx` lines 87-103); the argument is
`err.message` (`""` for a missing message, in which case the generic
default is kept). -/
def mapErrorMessage (msg : String) : String :=
  if strIncludes msg "insufficient funds" then "Insufficient ETH balance for transaction"
  else if strIncludes msg "User denied" then "Transaction was cancelled by user"
  else if strIncludes msg "Invalid Ethereum address" then "Please connect a valid Ethereum wallet"
  else if msg != "" then msg
  else "Payment failed. Please try again."

/-- Outcome of `handlePayment`: either `onPaymentSuccess(analysisId)` was
invoked, or `setError(errorMessage)` was. -/
inductive PaymentOutcome where
  | success (analysisId : String)
  | failure (errorMessage : String)

/-- The distinct message thrown when the `PaymentReceived` event (or its
`returnValues`) is missing from the receipt
(`src/components/PaymentHandler.tsx` line 84). -/
def eventNotFoundMsg : String := "Could not retrieve analysis ID from transaction"

/-- Model of `handlePayment` (`src/components/PaymentHandler.tsx` lines
31-107).  `hasWeb3`/`hasImage` model the truthiness of the `web3` and
`selectedImage` props, `isValidAddress` the result of
`web3.utils.isAddress(account)`, `priceCall` the `analysisPrice()` read and
`sendTx` the payment transaction (each `.error` carries the thrown
`err.message`).  Image hashing and UI state updates are elided: the hash
value feeds only the contract call and cannot fail. -/
def handlePayment (hasWeb3 : Bool) (account : String) (isValidAddress : Bool)
    (hasImage : Bool) (priceCall : Except String Nat)
    (sendTx : Except String TxReceipt) : PaymentOutcome :=
  let run : Except String String :=
    if !hasWeb3 || account == "" || !hasImage then .error "Missing required parameters"
    else if !isValidAddress then .error "Invalid Ethereum address"
    else
      match priceCall with
      | .error e => .error e
      | .ok _ =>
        match sendTx with
        | .error e => .error e
        | .ok receipt =>
          match receipt.paymentReceived with
          | some ev =>
            (match ev.returnValues with
             | some rv => .ok (jsStringOfOpt rv.analysisId)
             | none => .error eventNotFoundMsg)
          | none => .error eventNotFoundMsg
  match run with
  | .ok analysisId => .success analysisId
  | .error msg => .failure (mapErrorMessage msg)

/-- The exact structured payload from the spec's round-trip property. -/
def objStr : String :=
  "\x7b\"diagnosis\":\"leaf rust\",\"advice\":\"apply fungicide\",\"severity\":\"high\",\"confidence\":0.9\x7d"

/-- The structured object denoted by `objStr`. -/
def objJson : Json :=
  .obj [("diagnosis", .str "leaf rust"), ("advice", .str "apply fungicide"),
        ("severity", .str "high"), ("confidence", .num ⟨9, 1⟩)]

/-- A raw AI text whose extracted JSON parses but carries an out-of-range
severity and confidence. -/
def invalidFieldsText : String :=
  "\x7b\"diagnosis\":\"leaf spot\",\"advice\":\"spray\",\"severity\":\"critical\",\"confidence\":1.5\x7d"

/-- The spec's round-trip payload embedded in prose whose suffix contains a
stray closing brace. -/
def strayBraceText : String :=
  "Sure! Here is the result: " ++ objStr ++ " Hope this helps :-\x7d"

/-- A receipt whose `PaymentReceived` event carries correlation identifier
`"42"`. -/
def happyReceipt : TxReceipt := ⟨"0xtxhash", some ⟨some ⟨some "42"⟩⟩⟩

/-- A receipt with no `PaymentReceived` event. -/
def eventlessReceipt : TxReceipt := ⟨"0xtxhash2", none⟩

/-- Rebuilding a string from its character list is the identity. -/
theorem asString_data (s : String) : s.data.asString = s := by
  cases s
  rfl

/-- Two JSON values differing at one field are different. -/
theorem jGet_ne {x y : Json} (k : String) (hne : jGet x k ≠ jGet y k) : x ≠ y :=
  fun h => hne (by rw [h])

/-- A deleted temporary file is gone. -/
theorem removeFile_not_mem (fs : List String) (f : String) : f ∉ removeFile fs f := by
  intro hmem
  simp [removeFile] at hmem

/-- A match at the head gives index zero. -/
theorem firstIdx_cons_pos (p : Char → Bool) (c : Char) (cs : List Char)
    (h : p c = true) : firstIdx p (c :: cs) = some 0 := by
  simp [firstIdx, h]

/-- Searching past a prefix with no match shifts the index by its length. -/
theorem firstIdx_append (p : Char → Bool) (l1 l2 : List Char)
    (h : ∀ c ∈ l1, p c = false) :
    firstIdx p (l1 ++ l2) = (firstIdx p l2).map (· + l1.length) := by
  induction l1 with
  | nil => cases hfi : firstIdx p l2 <;> simp [hfi]
  | cons c cs ih =>
    have hc : p c = false := h c (List.mem_cons_self c cs)
    have hcs : ∀ a ∈ cs, p a = false := fun a ha => h a (List.mem_cons_of_mem _ ha)
    rw [List.cons_append, firstIdx, hc]
    simp only [Bool.false_eq_true, if_false]
    rw [ih hcs]
    cases firstIdx p l2 with
    | none => simp
    | some a =>
      simp
      omega

/-- The first match after a matchless prefix sits right behind it. -/
theorem firstIdx_append_cons_pos (p : Char → Bool) (l1 : List Char) (c : Char)
    (l2 : List Char) (h1 : ∀ a ∈ l1, p a = false) (hc : p c = true) :
    firstIdx p (l1 ++ c :: l2) = some l1.length := by
  rw [firstIdx_append p l1 _ h1, firstIdx_cons_pos _ _ _ hc]
  simp

/-- The regex model extracts exactly an embedded brace-delimited block when
the prefix holds no opening brace and the suffix no closing brace. -/
theorem extractJsonSpan_embed (p mid s : List Char)
    (hp : ∀ c ∈ p, (c == '{') = false)
    (hs : ∀ c ∈ s, (c == '}') = false)
    (hhead : ∃ t, mid = '{' :: t)
    (hlast : ∃ t, mid = t ++ ['}'])
    (hlen : 2 ≤ mid.length) :
    extractJsonSpan (p ++ mid ++ s) = some mid := by
  obtain ⟨t, ht⟩ := hhead
  obtain ⟨t2, ht2⟩ := hlast
  have hfi : firstIdx (fun c => c == '{') (p ++ mid ++ s) = some p.length := by
    have hshape : p ++ mid ++ s = p ++ '{' :: (t ++ s) := by
      rw [ht]
      simp
    rw [hshape, firstIdx_append_cons_pos _ _ _ _ hp (by simp)]
  have hli : lastIdx (fun c => c == '}') (p ++ mid ++ s) =
      some (p.length + mid.length - 1) := by
    have hsr : ∀ c ∈ s.reverse, (c == '}') = false :=
      fun c hc => hs c (List.mem_reverse.mp hc)
    have hrev : (p ++ mid ++ s).reverse = s.reverse ++ '}' :: (t2.reverse ++ p.reverse) := by
      rw [ht2]
      simp
    unfold lastIdx
    rw [hrev, firstIdx_append_cons_pos _ _ _ _ hsr (by simp)]
    simp only [Option.map_some', Option.some.injEq, List.length_reverse, List.length_append]
    omega
  simp only [extractJsonSpan, hfi, hli]
  rw [if_pos (by omega : p.length < p.length + mid.length - 1)]
  have harith : p.length + mid.length - 1 - p.length + 1 = mid.length := by omega
  rw [List.append_assoc, List.drop_left, harith, List.take_left]

/-- C1: the claim says every successful payment creates a pending store
record keyed by the returned correlation identifier.  The code has no INSERT
at all: after `handlePayment` succeeds with identifier `"42"`, the analyze
route run against a fresh (empty) table leaves it empty — its only write is
an `UPDATE` that matches zero rows — and even responds with success. -/
theorem paymentSuccess_no_pending_record :
    handlePayment true "0xFarmerAddr" true true (.ok 1000000) (.ok happyReceipt) =
      .success "42" ∧
    (analyzeRoute (some "tmpfileA") (some "42") (some "the ai answer") true 5
      ⟨[], ["tmpfileA"]⟩).2.db = [] ∧
    (analyzeRoute (some "tmpfileA") (some "42") (some "the ai answer") true 5
      ⟨[], ["tmpfileA"]⟩).1 = .ok (fallbackResult "the ai answer") :=
  ⟨rfl, rfl, rfl⟩

/-- C2 (counterexample): a parsed object with severity `"critical"` and
confidence `1.5` is accepted verbatim by the normalizer — it is not the
fallback result the claim demands. -/
theorem resultNormalizer_accepts_invalid_fields :
    normalizeResult invalidFieldsText =
      Json.obj [("diagnosis", .str "leaf spot"), ("advice", .str "spray"),
                ("severity", .str "critical"), ("confidence", .num ⟨15, 1⟩)] ∧
    normalizeResult invalidFieldsText ≠ fallbackResult invalidFieldsText :=
  ⟨rfl, jGet_ne "severity" (by
    rw [show jGet (normalizeResult invalidFieldsText) "severity" =
          some (Json.str "critical") from rfl,
        show jGet (fallbackResult invalidFieldsText) "severity" =
          some (Json.str "medium") from rfl]
    simp)⟩

/-- C2 (amended): the normalizer performs no field validation — whenever
extraction and `JSON.parse` succeed, the parsed value is returned unchanged,
whatever its fields hold; the fallback is used only when extraction or
parsing fails. -/
theorem resultNormalizer_no_validation (text : String) (v : Json)
    (h : structuredParse text = some v) :
    normalizeResult text = v := by
  simp only [normalizeResult, h]

/-- C2 (witness): the amended theorem applied to the out-of-range input. -/
theorem resultNormalizer_no_validation_witness :
    normalizeResult invalidFieldsText =
      Json.obj [("diagnosis", .str "leaf spot"), ("advice", .str "spray"),
                ("severity", .str "critical"), ("confidence", .num ⟨15, 1⟩)] :=
  resultNormalizer_no_validation invalidFieldsText _ rfl

/-- C3 (counterexample): completing an unknown identifier does not fail with
NotFound — on an empty table the analyze route responds with success and the
table stays empty. -/
theorem analyzeRoute_unknown_id_succeeds :
    analyzeRoute (some "tmpupload") (some "99") (some "plain ai text") true 3
      ⟨[], ["tmpupload"]⟩ =
      (.ok (fallbackResult "plain ai text"), ⟨[], []⟩) := rfl

/-- C3 (amended): the completion write on an identifier with no existing
record is a silent no-op — the table is unchanged and in particular no
record is ever created (the row count is always preserved); it does not fail
with NotFound. -/
theorem completeAnalysis_unknown_id (db : List AnalysisRecord) (id : String)
    (r : Json) (now : Nat)
    (h : db.all (fun rec => rec.analysis_id != id) = true) :
    completeAnalysis db id r now = db ∧
    (completeAnalysis db id r now).length = db.length := by
  have heq : completeAnalysis db id r now = db := by
    unfold completeAnalysis
    induction db with
    | nil => rfl
    | cons a l ih =>
      have ha := List.all_eq_true.mp h a (List.mem_cons_self a l)
      have hl : l.all (fun rec => rec.analysis_id != id) = true := by
        rw [List.all_eq_true]
        intro x hx
        exact List.all_eq_true.mp h x (List.mem_cons_of_mem _ hx)
      simp only [List.map_cons]
      rw [if_neg (by simpa using ha), ih hl]
  exact ⟨heq, by rw [heq]⟩

/-- C3 (witness): the amended theorem applied to the empty table. -/
theorem completeAnalysis_unknown_id_witness :
    completeAnalysis [] "9" (Json.obj []) 0 = [] ∧
    (completeAnalysis [] "9" (Json.obj []) 0).length = ([] : List AnalysisRecord).length :=
  completeAnalysis_unknown_id [] "9" (Json.obj []) 0 rfl

/-- C4 (counterexample): completing a pending record with the parsed result
of raw text `"\x7b\x7d"` (the empty JSON object, which the normalizer accepts)
yields an observable record with `completed_at` set and every result field
null — the two-state invariant as claimed is violated. -/
theorem completed_record_missing_fields :
    runOps [] [StoreOp.createPendingOp "42" "0xabc" "imghash" 0,
               StoreOp.completeOp "42" (Json.obj []) 1] =
      [{ analysis_id := "42", farmer_address := "0xabc", image_hash := "imghash",
         diagnosis := none, advice := none, confidence := none, severity := none,
         created_at := 0, completed_at := some 1 }] ∧
    normalizeResult "\x7b\x7d" = Json.obj [] :=
  ⟨rfl, rfl⟩

/-- Store-operation sequences whose completions all carry full results
preserve the two-state record invariant. -/
theorem runOps_preserves (ops : List StoreOp) :
    ∀ db : List AnalysisRecord, (∀ op ∈ ops, opWellFormed op = true) →
      (∀ rec ∈ db, recordStateOk rec) → ∀ rec ∈ runOps db ops, recordStateOk rec := by
  induction ops with
  | nil =>
    intro db _ hdb rec hrec
    exact hdb rec hrec
  | cons op rest ih =>
    intro db hops hdb rec hrec
    have hop : opWellFormed op = true := hops op (List.mem_cons_self _ _)
    have hrest : ∀ o ∈ rest, opWellFormed o = true :=
      fun o ho => hops o (List.mem_cons_of_mem _ ho)
    have hdb' : ∀ r ∈ applyOp db op, recordStateOk r := by
      cases op with
      | createPendingOp id owner hash now =>
        intro r hr
        by_cases hdup : db.any (fun rec => rec.analysis_id == id)
        · rw [show applyOp db (.createPendingOp id owner hash now) = db by
            simp [applyOp, createPending, hdup]] at hr
          exact hdb r hr
        · rw [show applyOp db (.createPendingOp id owner hash now) =
              db ++ [⟨id, owner, hash, none, none, none, none, now, none⟩] by
            simp [applyOp, createPending, hdup]] at hr
          rcases List.mem_append.mp hr with hin | hnew
          · exact hdb r hin
          · rw [List.mem_singleton.mp hnew]
            exact Or.inl rfl
      | completeOp id res now =>
        intro r hr
        simp only [applyOp, completeAnalysis, List.mem_map] at hr
        obtain ⟨a, ha, hfa⟩ := hr
        by_cases hid : a.analysis_id == id
        · rw [if_pos hid] at hfa
          subst hfa
          refine Or.inr ?_
          have hres : resultComplete res = true := hop
          simp only [resultComplete, Bool.and_eq_true] at hres
          exact ⟨by simp, hres.1.1.1, hres.1.1.2, hres.1.2, hres.2⟩
        · rw [if_neg hid] at hfa
          subst hfa
          exact hdb a ha
    have hfold : runOps db (op :: rest) = runOps (applyOp db op) rest := by
      simp [runOps]
    exact ih (applyOp db op) hrest hdb' rec (by rw [← hfold]; exact hrec)

/-- C4 (amended): after any operation sequence from the empty table, every
record is pending (`completed_at` null) or completed with `completed_at` and
all four result fields set — provided every completion result carries all
four fields (as the fallback result always does); a completion whose parsed
result omits a field instead leaves that field null in a completed record. -/
theorem analysisStore_two_state (ops : List StoreOp)
    (h : ops.all opWellFormed = true) :
    ∀ rec ∈ runOps [] ops, recordStateOk rec :=
  runOps_preserves ops [] (List.all_eq_true.mp h) (by intro rec hrec; cases hrec)

/-- C4 (witness): the amended theorem applied to a create-then-complete
sequence whose completion carries the (full) fallback result. -/
theorem analysisStore_two_state_witness :
    (([StoreOp.createPendingOp "7" "0xowner" "imgh" 0,
       StoreOp.completeOp "7" (fallbackResult "x") 1].all opWellFormed) = true) ∧
    (∀ rec ∈ runOps [] [StoreOp.createPendingOp "7" "0xowner" "imgh" 0,
       StoreOp.completeOp "7" (fallbackResult "x") 1], recordStateOk rec) :=
  ⟨rfl, analysisStore_two_state
    [StoreOp.createPendingOp "7" "0xowner" "imgh" 0,
     StoreOp.completeOp "7" (fallbackResult "x") 1] rfl⟩

/-- C5 (counterexample): with a stray closing brace in the trailing prose,
the greedy extraction spans past the object, the parse fails, and the
normalizer returns the fallback instead of the embedded object. -/
theorem roundtrip_stray_brace_falls_back :
    normalizeResult strayBraceText = fallbackResult strayBraceText ∧
    normalizeResult strayBraceText ≠ objJson :=
  ⟨rfl, jGet_ne "severity" (by
    rw [show jGet (normalizeResult strayBraceText) "severity" =
          some (Json.str "medium") from rfl,
        show jGet objJson "severity" = some (Json.str "high") from rfl]
    simp)⟩

/-- C5 (amended): the round-trip holds whenever the prose before the object
contains no opening brace and the prose after it no closing brace — the
extractor takes the span from the first `\x7b` to the last `\x7d` of the whole
text, not to the brace matching the first one. -/
theorem resultNormalizer_roundtrip (pre post : String)
    (hpre : pre.data.all (fun c => c != '{') = true)
    (hpost : post.data.all (fun c => c != '}') = true) :
    normalizeResult (pre ++ objStr ++ post) = objJson := by
  have hp : ∀ c ∈ pre.data, (c == '{') = false := by
    intro c hc
    have h1 := List.all_eq_true.mp hpre c hc
    simpa using h1
  have hs : ∀ c ∈ post.data, (c == '}') = false := by
    intro c hc
    have h1 := List.all_eq_true.mp hpost c hc
    simpa using h1
  have hdata : (pre ++ objStr ++ post).data = pre.data ++ objStr.data ++ post.data := by
    rw [String.data_append, String.data_append]
  have hhead : ∃ t, objStr.data = '{' :: t := ⟨objStr.data.tail, rfl⟩
  have hlast : ∃ t, objStr.data = t ++ ['}'] := ⟨objStr.data.dropLast, by decide⟩
  have hextract : extractJsonSpan (pre ++ objStr ++ post).data = some objStr.data := by
    rw [hdata]
    exact extractJsonSpan_embed _ _ _ hp hs hhead hlast (by decide)
  have hparse : jsonParse objStr.data = some objJson := rfl
  have hsp : structuredParse (pre ++ objStr ++ post) = some objJson := by
    simp only [structuredParse, hextract]
    exact hparse
  simp only [normalizeResult, hsp]

/-- C5 (witness): the amended round-trip applied to brace-free prose. -/
theorem resultNormalizer_roundtrip_witness :
    ("The analysis: ".data.all (fun c => c != '{') = true) ∧
    (" I hope this helps.".data.all (fun c => c != '}') = true) ∧
    normalizeResult ("The analysis: " ++ objStr ++ " I hope this helps.") = objJson :=
  ⟨by decide, by decide,
    resultNormalizer_roundtrip "The analysis: " " I hope this helps." (by decide) (by decide)⟩

/-- C6: on every raw text where structured parsing fails, the normalizer
returns exactly the deterministic fallback — the first 200 characters of the
text with `"..."` appended as diagnosis, the fixed referral advice, severity
`"medium"` and confidence `0.75`. -/
theorem resultNormalizer_fallback (text : String)
    (h : structuredParse text = none) :
    normalizeResult text =
      Json.obj [("diagnosis", .str ((text.data.take 200).asString ++ "...")),
                ("advice", .str "Please consult with a local agricultural expert for detailed treatment recommendations."),
                ("severity", .str "medium"),
                ("confidence", .num ⟨75, 2⟩)] := by
  simp only [normalizeResult, h]
  rfl

/-- C6 (witness): the fallback theorem applied to a non-JSON text. -/
theorem resultNormalizer_fallback_witness :
    structuredParse "I see some yellowing on the leaves" = none ∧
    normalizeResult "I see some yellowing on the leaves" =
      Json.obj [("diagnosis",
                 .str (("I see some yellowing on the leaves".data.take 200).asString ++ "...")),
                ("advice", .str "Please consult with a local agricultural expert for detailed treatment recommendations."),
                ("severity", .str "medium"),
                ("confidence", .num ⟨75, 2⟩)] :=
  ⟨rfl, resultNormalizer_fallback _ rfl⟩

/-- C7: whenever inference fails or the completion write fails after an
image was uploaded, the route returns the 500 error body, the table is left
exactly as it was, and the temporary file is no longer present. -/
theorem analyzeRoute_failure_cleanup (f id : String) (aiText : Option String)
    (dbWriteOk : Bool) (now : Nat) (st : ServerState)
    (hfail : aiText = none ∨ dbWriteOk = false) :
    (analyzeRoute (some f) (some id) aiText dbWriteOk now st).1 =
      .err 500 analysisFailedMsg ∧
    ((analyzeRoute (some f) (some id) aiText dbWriteOk now st).2).db = st.db ∧
    f ∉ ((analyzeRoute (some f) (some id) aiText dbWriteOk now st).2).files := by
  rcases hfail with h | h
  · subst h
    exact ⟨rfl, rfl, removeFile_not_mem st.files f⟩
  · cases aiText with
    | none => exact ⟨rfl, rfl, removeFile_not_mem st.files f⟩
    | some text =>
      subst h
      exact ⟨rfl, rfl, removeFile_not_mem st.files f⟩

/-- C7 (witness): the cleanup theorem applied to a failing inference call. -/
theorem analyzeRoute_failure_cleanup_witness :
    (analyzeRoute (some "tmp1") (some "7") none true 0 ⟨[], ["tmp1"]⟩).1 =
      .err 500 analysisFailedMsg ∧
    ((analyzeRoute (some "tmp1") (some "7") none true 0 ⟨[], ["tmp1"]⟩).2).db =
      ([] : List AnalysisRecord) ∧
    "tmp1" ∉ ((analyzeRoute (some "tmp1") (some "7") none true 0 ⟨[], ["tmp1"]⟩).2).files :=
  analyzeRoute_failure_cleanup "tmp1" "7" none true 0 ⟨[], ["tmp1"]⟩ (Or.inl rfl)

/-- C8: the history query returns exactly the records whose owner matches
the requested address — pending and completed alike, none of any other
owner — ordered most-recent first by creation time. -/
theorem historyByOwner_spec (db : List AnalysisRecord) (addr : String) :
    (∀ rec, rec ∈ getAnalysesByFarmer db addr ↔ rec ∈ db ∧ rec.farmer_address = addr) ∧
    List.Sorted mostRecentFirst (getAnalysesByFarmer db addr) := by
  constructor
  · intro rec
    rw [getAnalysesByFarmer, List.Perm.mem_iff (List.perm_insertionSort _ _)]
    simp [List.mem_filter]
  · exact List.sorted_insertionSort _ _

/-- C9: when the receipt carries no `PaymentReceived` event (or no
`returnValues`), `handlePayment` surfaces the dedicated
could-not-retrieve-identifier message — distinct from the generic
transport-failure default — and never invokes the success callback. -/
theorem paymentEventMissing_distinct_error (account : String) (price : Nat)
    (receipt : TxReceipt)
    (hacct : (account == "") = false)
    (hev : (receipt.paymentReceived.bind fun e => e.returnValues) = none) :
    handlePayment true account true true (.ok price) (.ok receipt) =
      .failure eventNotFoundMsg ∧
    eventNotFoundMsg ≠ mapErrorMessage "" ∧
    ∀ idv, handlePayment true account true true (.ok price) (.ok receipt) ≠
      .success idv := by
  have hout : handlePayment true account true true (.ok price) (.ok receipt) =
      .failure eventNotFoundMsg := by
    unfold handlePayment
    simp only [Bool.not_true, Bool.false_or, hacct, Bool.or_self]
    cases hpr : receipt.paymentReceived with
    | none =>
      simp [hpr]
      rfl
    | some ev =>
      cases hrv : ev.returnValues with
      | none =>
        simp [hpr, hrv]
        rfl
      | some rv =>
        rw [hpr] at hev
        simp [hrv] at hev
  refine ⟨hout, by decide, ?_⟩
  intro idv
  rw [hout]
  intro hcontra
  exact PaymentOutcome.noConfusion hcontra

/-- C9 (witness): the event-missing theorem applied to a concrete receipt
without a `PaymentReceived` event. -/
theorem paymentEventMissing_distinct_error_witness :
    (("0xFarmer" == "") = false) ∧
    ((eventlessReceipt.paymentReceived.bind fun e => e.returnValues) = none) ∧
    (handlePayment true "0xFarmer" true true (.ok 1000) (.ok eventlessReceipt) =
      .failure eventNotFoundMsg ∧
     eventNotFoundMsg ≠ mapErrorMessage "" ∧
     ∀ idv, handlePayment true "0xFarmer" true true (.ok 1000) (.ok eventlessReceipt) ≠
       .success idv) :=
  ⟨rfl, rfl, paymentEventMissing_distinct_error "0xFarmer" 1000 eventlessReceipt rfl rfl⟩

/-- C10: on every raw text shorter than 200 characters where structured
parsing fails, the fallback diagnosis is the whole text with `"..."`
appended — the ellipsis marker is unconditional, not a truncation sign. -/
theorem fallback_ellipsis_unconditional (text : String)
    (h : structuredParse text = none) (hlen : text.length < 200) :
    jGet (normalizeResult text) "diagnosis" = some (.str (text ++ "...")) := by
  have htake : text.data.take 200 = text.data :=
    List.take_of_length_le (Nat.le_of_lt hlen)
  simp only [normalizeResult, h, fallbackResult, truncate200, jGet, htake, asString_data]
  rfl

/-- C10 (witness): the unconditional-ellipsis theorem applied to a short
non-JSON text. -/
theorem fallback_ellipsis_unconditional_witness :
    structuredParse "short note" = none ∧ "short note".length < 200 ∧
    jGet (normalizeResult "short note") "diagnosis" = some (.str ("short note" ++ "...")) :=
  ⟨rfl, by decide, fallback_ellipsis_unconditional "short note" rfl (by decide)⟩
